import Mathlib

/-!
Verification of the Conway's Game of Life simulation core (main.cpp).

The simulation core is embedded shallowly:
* cell ages (uint8_t) become Nat values,
* the grid buffers (std::vector of uint8_t) become List Nat in row-major
  order, indexed by idx,
* C++ int arithmetic on coordinates becomes Int arithmetic
  (Int.tmod and Int.tdiv mirror C++ truncated division),
* the float arithmetic of the palette is embedded exactly over the
  rationals, with explicit truncation and rounding functions mirroring
  fmod and lround.
-/

namespace Conway

/-- Source function mod (line 47): remainder that is non-negative for a
positive modulus, built from the truncated remainder of C++ via a
conditional correction. -/
def mod (a m : Int) : Int :=
  if Int.tmod a m < 0 then Int.tmod a m + m else Int.tmod a m

/-- Source function idx (line 48): row-major index of cell (x, y) on a grid
of width w. -/
def idx (x y w : Nat) : Nat := y * w + x

/-- Read a cell age from a buffer; out-of-range reads default to 0 (the
source only indexes in bounds, so the default is never observed there). -/
def gget (g : List Nat) (i : Nat) : Nat := g.getD i 0

/-- The eight Moore-neighborhood offsets enumerated by the two loops of
countNeighbors (lines 95-97), with (0,0) skipped. -/
def mooreOffsets : List (Int × Int) :=
  [(-1, -1), (0, -1), (1, -1), (-1, 0), (1, 0), (-1, 1), (0, 1), (1, 1)]

/-- One iteration of the countNeighbors loop body (lines 98-106): with wrap,
both coordinates are wrapped with mod and the cell is read; without wrap,
out-of-range coordinates contribute nothing. -/
def neighborAlive (g : List Nat) (w h : Nat) (wrap : Bool) (nx ny : Int) : Bool :=
  if wrap then
    decide (gget g (idx (mod nx w).toNat (mod ny h).toNat w) ≠ 0)
  else
    if nx < 0 ∨ (w : Int) ≤ nx ∨ ny < 0 ∨ (h : Int) ≤ ny then false
    else decide (gget g (idx nx.toNat ny.toNat w) ≠ 0)

/-- Source function countNeighbors (lines 93-110): number of the eight Moore
neighbor positions of (x, y) holding a live cell. -/
def countNeighbors (g : List Nat) (x y : Int) (w h : Nat) (wrap : Bool) : Nat :=
  List.countP (fun d => neighborAlive g w h wrap (x + d.1) (y + d.2)) mooreOffsets

/-- The age cap of stepLife (line 114): clamp(max_age, 1, 255). -/
def clampCap (max_age : Int) : Nat :=
  (if max_age < 1 then 1 else if 255 < max_age then 255 else max_age).toNat

/-- The per-cell body of the stepLife loops (lines 118-131). -/
def stepCell (cur : List Nat) (w h : Nat) (wrap : Bool) (cap : Nat) (x y : Nat) : Nat :=
  let n := countNeighbors cur x y w h wrap
  let age := gget cur (idx x y w)
  let nextAlive : Bool := if age ≠ 0 then decide (n = 2 ∨ n = 3) else decide (n = 3)
  if nextAlive = false then 0
  else if age = 0 then 1
  else if age < cap then age + 1 else cap

/-- Source function stepLife (lines 112-134): the next generation, built
cell by cell from the previous generation snapshot cur. -/
def stepLife (cur : List Nat) (w h : Nat) (wrap : Bool) (max_age : Int) : List Nat :=
  (List.range (w * h)).map (fun i => stepCell cur w h wrap (clampCap max_age) (i % w) (i / w))

/-- Source function setCell (lines 141-144): silently ignores out-of-bounds
coordinates, otherwise writes age 1 (alive) or 0 (dead). -/
def setCell (g : List Nat) (w h : Nat) (gx gy : Int) (alive : Bool) : List Nat :=
  if gx < 0 ∨ (w : Int) ≤ gx ∨ gy < 0 ∨ (h : Int) ≤ gy then g
  else g.set (idx gx.toNat gy.toNat w) (if alive then 1 else 0)

/-- The grid-content part of resizeGridToWindow (lines 156-175): no-op when
the dimensions already match, otherwise a fresh zero buffer receiving the
overlapping top-left rectangle of the old current buffer. -/
def resizeGrid (cur : List Nat) (grid_w grid_h new_w new_h : Nat) : List Nat :=
  if new_w = grid_w ∧ new_h = grid_h ∧ cur.length = grid_w * grid_h then cur
  else
    (List.range (new_w * new_h)).map (fun i =>
      if (0 < grid_w ∧ 0 < grid_h ∧ cur.length = grid_w * grid_h)
          ∧ i % new_w < min grid_w new_w ∧ i / new_w < min grid_h new_h
      then gget cur (idx (i % new_w) (i / new_w) grid_w) else 0)

/-- Source function resizeGridToWindow (lines 146-176): derives the new grid
dimensions from the window pixel size and the configured cell size, then
rebuilds the current buffer with resizeGrid. -/
def resizeGridToWindow (win_w_px win_h_px : Nat) (cell_px : Int)
    (grid_w grid_h : Nat) (cur : List Nat) : Nat × Nat × List Nat :=
  let cell : Nat := (max 1 cell_px).toNat
  let new_w := max 1 (win_w_px / cell)
  let new_h := max 1 (win_h_px / cell)
  (new_w, new_h, resizeGrid cur grid_w grid_h new_w new_h)

/-- The step-timer test of the frame loop (lines 510-513): a step is due
when the interval is 0, or when the elapsed milliseconds since the last
step reach the interval. Timestamps are in milliseconds. -/
def time_to_step (ms_per_step now last_step : Int) : Bool :=
  if ms_per_step = 0 then true else decide (ms_per_step ≤ now - last_step)

/-- The last-step timestamp after one frame (lines 515-519): reset to now
exactly when a step executes. -/
def stepClock (ms_per_step now last_step : Int) : Int :=
  if time_to_step ms_per_step now last_step then now else last_step

/-- The pointer-to-cell computation of the frame loop (lines 488-490):
pixel coordinates divided (C++ truncated division) by the cell size. -/
def mouseCell (cell_px mx my : Int) : Int × Int :=
  (Int.tdiv mx (max 1 cell_px), Int.tdiv my (max 1 cell_px))

/-- The paint/erase part of the event handling (lines 485-493): left paints
first, right erases second, both targeting the cell under the pointer. -/
def applyMouse (g : List Nat) (w h : Nat) (cell_px mx my : Int)
    (left rght : Bool) : List Nat :=
  let p := mouseCell cell_px mx my
  let g1 := if left then setCell g w h p.1 p.2 true else g
  if rght then setCell g1 w h p.1 p.2 false else g1

/-- The live-cell set of a buffer, as a Boolean mask (age nonzero). -/
def liveMask (g : List Nat) : List Bool := g.map (fun a => decide (a ≠ 0))

/- ### Arithmetic helper lemmas -/

/-- The truncated remainder lies strictly above the negated positive
modulus. -/
theorem tmod_gt_neg (a m : Int) (hm : 0 < m) : -m < Int.tmod a m := by
  cases a with
  | ofNat n =>
      have h0 : 0 ≤ Int.tmod (Int.ofNat n) m := Int.tmod_nonneg m (Int.ofNat_nonneg n)
      omega
  | negSucc k =>
      cases m with
      | ofNat n =>
          have hn : 0 < n := by
            have h : (0 : Int) < (n : Int) := hm
            exact_mod_cast h
          have hdef : Int.tmod (Int.negSucc k) (Int.ofNat n) = -Int.ofNat ((k + 1) % n) := rfl
          have hlt : (k + 1) % n < n := Nat.mod_lt _ hn
          rw [hdef]
          simp only [Int.ofNat_eq_coe]
          have h2 : (((k + 1) % n : Nat) : Int) < (n : Int) := by exact_mod_cast hlt
          omega
      | negSucc n =>
          have h := Int.negSucc_lt_zero n
          omega

/-- For a positive modulus, mod agrees with the mathematical (euclidean)
remainder: in particular it is non-negative even for negative inputs. -/
theorem mod_eq_emod (a m : Int) (hm : 0 < m) : mod a m = a % m := by
  have h1 : Int.tmod a m + m * a.tdiv m = a := Int.tmod_add_tdiv a m
  have h2 : a % m = Int.tmod a m % m := by
    conv_lhs => rw [← h1]
    rw [Int.add_mul_emod_self_left]
  have h3 : Int.tmod a m < m := Int.tmod_lt_of_pos a hm
  have h4 : -m < Int.tmod a m := tmod_gt_neg a m hm
  unfold mod
  split
  case isTrue hneg =>
    have h5 : Int.tmod a m % m = (Int.tmod a m + m * 1) % m := by
      rw [Int.add_mul_emod_self_left]
    rw [h2, h5, Int.mul_one, Int.emod_eq_of_lt (by omega) (by omega)]
  case isFalse hpos =>
    rw [h2, Int.emod_eq_of_lt (by omega) (by omega)]

/-- mod is non-negative and below a positive modulus. -/
theorem mod_bounds (a m : Int) (hm : 0 < m) : 0 ≤ mod a m ∧ mod a m < m := by
  rw [mod_eq_emod a m hm]
  exact ⟨Int.emod_nonneg a (by omega), Int.emod_lt_of_pos a hm⟩

/- ### Row-major indexing helper lemmas -/

theorem rowmajor_lt (x y w h : Nat) (hx : x < w) (hy : y < h) : idx x y w < w * h := by
  unfold idx
  calc y * w + x < y * w + w := by omega
    _ = (y + 1) * w := by ring
    _ ≤ h * w := Nat.mul_le_mul_right w (by omega)
    _ = w * h := Nat.mul_comm h w

theorem rowmajor_mod (x y w : Nat) (hx : x < w) : idx x y w % w = x := by
  unfold idx
  rw [Nat.mul_comm, Nat.mul_add_mod]
  exact Nat.mod_eq_of_lt hx

theorem rowmajor_div (x y w : Nat) (hx : x < w) : idx x y w / w = y := by
  unfold idx
  rw [Nat.mul_comm, Nat.mul_add_div (by omega)]
  rw [Nat.div_eq_of_lt hx]
  omega

theorem rowmajor_inj (x y x' y' w : Nat) (hx : x < w) (hx' : x' < w) :
    idx x y w = idx x' y' w ↔ (x = x' ∧ y = y') := by
  constructor
  · intro hEq
    have hm : x = x' := by
      have := congrArg (fun i => i % w) hEq
      simpa [rowmajor_mod x y w hx, rowmajor_mod x' y' w hx'] using this
    have hd : y = y' := by
      have := congrArg (fun i => i / w) hEq
      simpa [rowmajor_div x y w hx, rowmajor_div x' y' w hx'] using this
    exact ⟨hm, hd⟩
  · rintro ⟨rfl, rfl⟩
    rfl

theorem getD_range_map {α : Type} (f : Nat → α) (n i : Nat) (d : α) (h : i < n) :
    ((List.range n).map f).getD i d = f i := by
  rw [List.getD_eq_getElem?_getD, List.getElem?_map, List.getElem?_range h]
  rfl

/-- Element i of the stepLife output, for an in-range index. -/
theorem gget_stepLife (cur : List Nat) (w h : Nat) (wrap : Bool) (max_age : Int)
    (i : Nat) (hi : i < w * h) :
    gget (stepLife cur w h wrap max_age) i
      = stepCell cur w h wrap (clampCap max_age) (i % w) (i / w) := by
  unfold stepLife gget
  exact getD_range_map _ _ _ _ hi

/-- The stepLife output at cell (x, y), in terms of the loop body. -/
theorem gget_stepLife_xy (cur : List Nat) (w h : Nat) (wrap : Bool) (max_age : Int)
    (x y : Nat) (hx : x < w) (hy : y < h) :
    gget (stepLife cur w h wrap max_age) (idx x y w)
      = stepCell cur w h wrap (clampCap max_age) x y := by
  rw [gget_stepLife cur w h wrap max_age (idx x y w) (rowmajor_lt x y w h hx hy)]
  rw [rowmajor_mod x y w hx, rowmajor_div x y w hx]

theorem clampCap_pos (max_age : Int) : 1 ≤ clampCap max_age := by
  unfold clampCap
  split
  · omega
  · split <;> omega

theorem idx_mod_div (i w : Nat) : idx (i % w) (i / w) w = i := by
  unfold idx
  rw [Nat.mul_comm (i / w) w]
  exact Nat.div_add_mod i w

/- ### Evaluation lemmas for the stepLife loop body -/

theorem stepCell_dead (cur : List Nat) (w h : Nat) (wrap : Bool) (cap : Nat)
    (x y : Nat) (h0 : gget cur (idx x y w) = 0) :
    stepCell cur w h wrap cap x y
      = if countNeighbors cur x y w h wrap = 3 then 1 else 0 := by
  unfold stepCell
  by_cases hn : countNeighbors cur x y w h wrap = 3 <;> simp [h0, hn]

theorem stepCell_live_dies (cur : List Nat) (w h : Nat) (wrap : Bool) (cap : Nat)
    (x y : Nat) (h0 : gget cur (idx x y w) ≠ 0)
    (hn : ¬(countNeighbors cur x y w h wrap = 2 ∨ countNeighbors cur x y w h wrap = 3)) :
    stepCell cur w h wrap cap x y = 0 := by
  unfold stepCell
  simp [h0, hn]

theorem stepCell_live_survives (cur : List Nat) (w h : Nat) (wrap : Bool) (cap : Nat)
    (x y : Nat) (h0 : gget cur (idx x y w) ≠ 0)
    (hn : countNeighbors cur x y w h wrap = 2 ∨ countNeighbors cur x y w h wrap = 3) :
    stepCell cur w h wrap cap x y
      = if gget cur (idx x y w) < cap then gget cur (idx x y w) + 1 else cap := by
  unfold stepCell
  simp [h0, hn]

/-- C1: for every grid state, step applies the B3/S23 rule per cell against
the previous generation snapshot: a live cell (age > 0) survives iff it has
2 or 3 live neighbors, otherwise its next age is 0; a dead cell (age 0)
with exactly 3 live neighbors becomes alive with age exactly 1. -/
theorem C1_step_rule (cur : List Nat) (w h : Nat) (wrap : Bool) (max_age : Int)
    (x y : Nat) (hx : x < w) (hy : y < h) :
    (gget cur (idx x y w) ≠ 0 →
      ((gget (stepLife cur w h wrap max_age) (idx x y w) ≠ 0 ↔
         (countNeighbors cur x y w h wrap = 2 ∨ countNeighbors cur x y w h wrap = 3)) ∧
       (¬(countNeighbors cur x y w h wrap = 2 ∨ countNeighbors cur x y w h wrap = 3) →
         gget (stepLife cur w h wrap max_age) (idx x y w) = 0))) ∧
    (gget cur (idx x y w) = 0 →
      gget (stepLife cur w h wrap max_age) (idx x y w)
        = if countNeighbors cur x y w h wrap = 3 then 1 else 0) := by
  rw [gget_stepLife_xy cur w h wrap max_age x y hx hy]
  constructor
  · intro h0
    by_cases hn : countNeighbors cur x y w h wrap = 2 ∨ countNeighbors cur x y w h wrap = 3
    · rw [stepCell_live_survives cur w h wrap (clampCap max_age) x y h0 hn]
      have hcp := clampCap_pos max_age
      refine ⟨⟨fun _ => hn, fun _ => ?_⟩, fun hc => absurd hn hc⟩
      split_ifs <;> omega
    · rw [stepCell_live_dies cur w h wrap (clampCap max_age) x y h0 hn]
      exact ⟨⟨fun hne => absurd rfl hne, fun hh => absurd hh hn⟩, fun _ => rfl⟩
  · intro h0
    exact stepCell_dead cur w h wrap (clampCap max_age) x y h0

/-- Witness for C1: on a 3x3 grid seeded with a horizontal blinker, the dead
cell (1, 0) has exactly 3 live neighbors and is born with age exactly 1. -/
theorem C1_step_rule_witness :
    gget (stepLife [0, 0, 0, 1, 1, 1, 0, 0, 0] 3 3 false 30) (idx 1 0 3) = 1 := by
  have h := (C1_step_rule [0, 0, 0, 1, 1, 1, 0, 0, 0] 3 3 false 30 1 0
    (by decide) (by decide)).2 (by decide)
  exact h.trans (by decide)

/-- C3: a cell alive before a step and surviving it has its age incremented
by exactly 1, saturating at cap = clamp(maxAge, 1, 255): the new age is
min(age + 1, cap), never decreases while continuously alive, and never
exceeds the cap. -/
theorem C3_age_saturation (cur : List Nat) (w h : Nat) (wrap : Bool) (max_age : Int)
    (x y : Nat) (hx : x < w) (hy : y < h)
    (halive : gget cur (idx x y w) ≠ 0)
    (hcap : gget cur (idx x y w) ≤ clampCap max_age)
    (hsurv : gget (stepLife cur w h wrap max_age) (idx x y w) ≠ 0) :
    gget (stepLife cur w h wrap max_age) (idx x y w)
        = min (gget cur (idx x y w) + 1) (clampCap max_age) ∧
      gget cur (idx x y w) ≤ gget (stepLife cur w h wrap max_age) (idx x y w) ∧
      gget (stepLife cur w h wrap max_age) (idx x y w) ≤ clampCap max_age := by
  rw [gget_stepLife_xy cur w h wrap max_age x y hx hy] at hsurv ⊢
  by_cases hn : countNeighbors cur x y w h wrap = 2 ∨ countNeighbors cur x y w h wrap = 3
  · rw [stepCell_live_survives cur w h wrap (clampCap max_age) x y halive hn]
    split_ifs with hlt <;> refine ⟨?_, ?_, ?_⟩ <;> omega
  · rw [stepCell_live_dies cur w h wrap (clampCap max_age) x y halive hn] at hsurv
    exact absurd rfl hsurv

/-- Witness for C3: in a still-life 2x2 block whose cells already carry the
cap age 3 (maxAge 3), a surviving cell keeps age exactly min(3+1, 3) = 3. -/
theorem C3_age_saturation_witness :
    gget (stepLife [0, 0, 0, 0, 0, 3, 3, 0, 0, 3, 3, 0, 0, 0, 0, 0] 4 4 false 3)
      (idx 1 1 4) = 3 := by
  have h := (C3_age_saturation [0, 0, 0, 0, 0, 3, 3, 0, 0, 3, 3, 0, 0, 0, 0, 0]
    4 4 false 3 1 1 (by decide) (by decide) (by decide) (by decide) (by decide)).1
  exact h.trans (by decide)

/-- C10: after one step every produced cell age is either 0 or lies in
[1, clamp(maxAge, 1, 255)], even when the input buffer holds ages above the
cap; a surviving cell whose prior age meets or exceeds the cap is written
back as exactly the cap. -/
theorem C10_age_reestablished (cur : List Nat) (w h : Nat) (wrap : Bool)
    (max_age : Int) (i : Nat) (hi : i < w * h) :
    (gget (stepLife cur w h wrap max_age) i = 0 ∨
      (1 ≤ gget (stepLife cur w h wrap max_age) i ∧
        gget (stepLife cur w h wrap max_age) i ≤ clampCap max_age)) ∧
    (gget cur i ≠ 0 → clampCap max_age ≤ gget cur i →
      gget (stepLife cur w h wrap max_age) i ≠ 0 →
      gget (stepLife cur w h wrap max_age) i = clampCap max_age) := by
  rw [gget_stepLife cur w h wrap max_age i hi]
  have hidx : idx (i % w) (i / w) w = i := idx_mod_div i w
  have hcp := clampCap_pos max_age
  by_cases h0 : gget cur i = 0
  · rw [stepCell_dead cur w h wrap (clampCap max_age) (i % w) (i / w) (by rw [hidx]; exact h0)]
    constructor
    · split_ifs
      · right; omega
      · left; rfl
    · intro hne; exact absurd h0 hne
  · by_cases hn : countNeighbors cur (i % w) (i / w) w h wrap = 2 ∨
        countNeighbors cur (i % w) (i / w) w h wrap = 3
    · rw [stepCell_live_survives cur w h wrap (clampCap max_age) (i % w) (i / w)
        (by rw [hidx]; exact h0) hn]
      rw [hidx]
      constructor
      · split_ifs with hlt
        · right; omega
        · right; omega
      · intro _ hge _
        split_ifs with hlt <;> omega
    · rw [stepCell_live_dies cur w h wrap (clampCap max_age) (i % w) (i / w)
        (by rw [hidx]; exact h0) hn]
      exact ⟨Or.inl rfl, fun _ _ hne => absurd rfl hne⟩

/-- Witness for C10: a 2x2 all-live block whose cells carry age 200, far
above the cap clamp(30, 1, 255) = 30, is written back at exactly 30. -/
theorem C10_age_reestablished_witness :
    gget (stepLife [200, 200, 200, 200] 2 2 false 30) 0 = 30 := by
  have h := (C10_age_reestablished [200, 200, 200, 200] 2 2 false 30 0
    (by decide)).2 (by decide) (by decide) (by decide)
  exact h.trans (by decide)

/- ### setCell helper lemmas -/

theorem gget_set_self (g : List Nat) (i v : Nat) (hi : i < g.length) :
    gget (g.set i v) i = v := by
  unfold gget
  rw [List.getD_eq_getElem?_getD, List.getElem?_set]
  simp [hi]

theorem gget_set_ne (g : List Nat) (i v j : Nat) (hij : i ≠ j) :
    gget (g.set i v) j = gget g j := by
  unfold gget
  rw [List.getD_eq_getElem?_getD, List.getElem?_set_ne hij, ← List.getD_eq_getElem?_getD]

theorem setCell_oob (g : List Nat) (w h : Nat) (gx gy : Int) (alive : Bool)
    (hoob : gx < 0 ∨ (w : Int) ≤ gx ∨ gy < 0 ∨ (h : Int) ≤ gy) :
    setCell g w h gx gy alive = g := by
  unfold setCell
  rw [if_pos hoob]

theorem setCell_length (g : List Nat) (w h : Nat) (gx gy : Int) (alive : Bool) :
    (setCell g w h gx gy alive).length = g.length := by
  unfold setCell
  split
  · rfl
  · exact List.length_set g _ _

theorem gget_setCell_in (g : List Nat) (w h : Nat) (gx gy : Int) (alive : Bool)
    (hx0 : 0 ≤ gx) (hxw : gx < (w : Int)) (hy0 : 0 ≤ gy) (hyh : gy < (h : Int))
    (hlen : g.length = w * h) :
    gget (setCell g w h gx gy alive) (idx gx.toNat gy.toNat w)
      = if alive then 1 else 0 := by
  unfold setCell
  rw [if_neg (by omega)]
  have hxw' : gx.toNat < w := by omega
  have hyh' : gy.toNat < h := by omega
  exact gget_set_self g _ _ (by rw [hlen]; exact rowmajor_lt _ _ _ _ hxw' hyh')

theorem gget_setCell_other (g : List Nat) (w h : Nat) (gx gy : Int) (alive : Bool)
    (j : Nat) (hj : j ≠ idx gx.toNat gy.toNat w) :
    gget (setCell g w h gx gy alive) j = gget g j := by
  unfold setCell
  split
  · rfl
  · exact gget_set_ne g _ _ j (fun hEq => hj hEq.symm)

/-- C5: setCell silently ignores every out-of-bounds coordinate, leaving the
grid unchanged; at an in-bounds coordinate it overwrites the cell with age
exactly 1 (alive) or 0 (dead), touching no other cell. -/
theorem C5_setCell (g : List Nat) (w h : Nat) (gx gy : Int) (alive : Bool) :
    ((gx < 0 ∨ (w : Int) ≤ gx ∨ gy < 0 ∨ (h : Int) ≤ gy) →
      setCell g w h gx gy alive = g) ∧
    (0 ≤ gx → gx < (w : Int) → 0 ≤ gy → gy < (h : Int) → g.length = w * h →
      gget (setCell g w h gx gy alive) (idx gx.toNat gy.toNat w)
          = (if alive then 1 else 0) ∧
      ∀ j, j ≠ idx gx.toNat gy.toNat w →
        gget (setCell g w h gx gy alive) j = gget g j) := by
  refine ⟨setCell_oob g w h gx gy alive, fun hx0 hxw hy0 hyh hlen => ?_⟩
  exact ⟨gget_setCell_in g w h gx gy alive hx0 hxw hy0 hyh hlen,
    fun j hj => gget_setCell_other g w h gx gy alive j hj⟩

/-- Witness for C5: on a 2x2 grid of age-5 cells, setCell at (-1, -1) is a
no-op, while setCell at (1, 0) overwrites the prior age 5 with exactly 1. -/
theorem C5_setCell_witness :
    setCell [5, 5, 5, 5] 2 2 (-1) (-1) true = [5, 5, 5, 5] ∧
    gget (setCell [5, 5, 5, 5] 2 2 1 0 true) (idx 1 0 2) = 1 := by
  constructor
  · exact (C5_setCell [5, 5, 5, 5] 2 2 (-1) (-1) true).1 (by decide)
  · have h := ((C5_setCell [5, 5, 5, 5] 2 2 1 0 true).2
      (by decide) (by decide) (by decide) (by decide) (by decide)).1
    exact h.trans (by decide)

/-- C4: a resize from valid old dimensions copies the overlapping top-left
rectangle of the current buffer unchanged to the same coordinates, starts
every cell outside that rectangle dead, and is a no-op when the dimensions
are unchanged. -/
theorem C4_resize (cur : List Nat) (grid_w grid_h new_w new_h : Nat)
    (hw : 0 < grid_w) (hh : 0 < grid_h) (hlen : cur.length = grid_w * grid_h) :
    (resizeGrid cur grid_w grid_h new_w new_h).length = new_w * new_h ∧
    (∀ x y, x < min grid_w new_w → y < min grid_h new_h →
      gget (resizeGrid cur grid_w grid_h new_w new_h) (idx x y new_w)
        = gget cur (idx x y grid_w)) ∧
    (∀ x y, x < new_w → y < new_h → (min grid_w new_w ≤ x ∨ min grid_h new_h ≤ y) →
      gget (resizeGrid cur grid_w grid_h new_w new_h) (idx x y new_w) = 0) ∧
    (new_w = grid_w → new_h = grid_h → resizeGrid cur grid_w grid_h new_w new_h = cur) := by
  unfold resizeGrid
  split
  case isTrue hC =>
    obtain ⟨hW, hH, hL⟩ := hC
    subst hW
    subst hH
    refine ⟨by rw [hlen], fun x y hx hy => rfl, fun x y hx hy hout => ?_, fun _ _ => rfl⟩
    simp only [Nat.min_self] at hout
    omega
  case isFalse hC =>
    refine ⟨by simp, fun x y hx hy => ?_, fun x y hx hy hout => ?_, fun hW hH => ?_⟩
    · have hxw : x < new_w := lt_of_lt_of_le hx (Nat.min_le_right _ _)
      have hyh : y < new_h := lt_of_lt_of_le hy (Nat.min_le_right _ _)
      unfold gget
      rw [getD_range_map _ _ _ _ (rowmajor_lt x y new_w new_h hxw hyh)]
      rw [rowmajor_mod x y new_w hxw, rowmajor_div x y new_w hxw]
      rw [if_pos ⟨⟨hw, hh, hlen⟩, hx, hy⟩]
    · unfold gget
      rw [getD_range_map _ _ _ _ (rowmajor_lt x y new_w new_h hx hy)]
      rw [rowmajor_mod x y new_w hx, rowmajor_div x y new_w hx]
      rw [if_neg (by rintro ⟨_, hx2, hy2⟩; omega)]
    · exact absurd ⟨hW, hH, hlen⟩ hC

/-- Witness for C4: a 4x4 patterned grid resized to 6x6 keeps cell (3, 3)
and starts cell (5, 2) dead; resizing 4x4 to 4x4 is a no-op. -/
theorem C4_resize_witness :
    gget (resizeGrid [1, 2, 3, 4, 5, 6, 7, 8, 9, 10, 11, 12, 13, 14, 15, 16] 4 4 6 6)
        (idx 3 3 6)
      = gget [1, 2, 3, 4, 5, 6, 7, 8, 9, 10, 11, 12, 13, 14, 15, 16] (idx 3 3 4) ∧
    gget (resizeGrid [1, 2, 3, 4, 5, 6, 7, 8, 9, 10, 11, 12, 13, 14, 15, 16] 4 4 6 6)
        (idx 5 2 6) = 0 ∧
    resizeGrid [1, 2, 3, 4, 5, 6, 7, 8, 9, 10, 11, 12, 13, 14, 15, 16] 4 4 4 4
      = [1, 2, 3, 4, 5, 6, 7, 8, 9, 10, 11, 12, 13, 14, 15, 16] := by
  refine ⟨?_, ?_, ?_⟩
  · exact (C4_resize [1, 2, 3, 4, 5, 6, 7, 8, 9, 10, 11, 12, 13, 14, 15, 16] 4 4 6 6
      (by decide) (by decide) (by decide)).2.1 3 3 (by decide) (by decide)
  · exact (C4_resize [1, 2, 3, 4, 5, 6, 7, 8, 9, 10, 11, 12, 13, 14, 15, 16] 4 4 6 6
      (by decide) (by decide) (by decide)).2.2.1 5 2 (by decide) (by decide) (by decide)
  · exact (C4_resize [1, 2, 3, 4, 5, 6, 7, 8, 9, 10, 11, 12, 13, 14, 15, 16] 4 4 4 4
      (by decide) (by decide) (by decide)).2.2.2 rfl rfl

/-- C7: a step is due iff the configured interval is 0 or the elapsed
wall-clock milliseconds since the last executed step reach the interval;
when a step executes the last-step timestamp becomes now itself, not
last plus the interval, so slow frames are not compensated. -/
theorem C7_sim_clock (ms_per_step now last_step : Int) :
    (time_to_step ms_per_step now last_step = true ↔
      (ms_per_step = 0 ∨ ms_per_step ≤ now - last_step)) ∧
    (time_to_step ms_per_step now last_step = true →
      stepClock ms_per_step now last_step = now) ∧
    (time_to_step ms_per_step now last_step = false →
      stepClock ms_per_step now last_step = last_step) := by
  unfold stepClock time_to_step
  by_cases h0 : ms_per_step = 0
  · simp [h0]
  · by_cases h1 : ms_per_step ≤ now - last_step <;> simp [h0, h1]

/-- Witness for C7: with a 1000 ms interval, 1500 ms of elapsed time makes a
step due and resets the last-step timestamp to now = 2000. -/
theorem C7_sim_clock_witness :
    time_to_step 1000 2000 500 = true ∧ stepClock 1000 2000 500 = 2000 := by
  constructor
  · exact (C7_sim_clock 1000 2000 500).1.mpr (Or.inr (by decide))
  · exact (C7_sim_clock 1000 2000 500).2.1 (by decide)

/-- C9: when both pointer buttons are held over the same in-bounds cell,
the event applies the paint (age 1) first and the erase (age 0) after it,
so the cell ends the event dead: erase wins the tie. -/
theorem C9_erase_wins (g : List Nat) (w h : Nat) (cell_px mx my : Int)
    (hlen : g.length = w * h)
    (hx0 : 0 ≤ (mouseCell cell_px mx my).1)
    (hxw : (mouseCell cell_px mx my).1 < (w : Int))
    (hy0 : 0 ≤ (mouseCell cell_px mx my).2)
    (hyh : (mouseCell cell_px mx my).2 < (h : Int)) :
    applyMouse g w h cell_px mx my true true
        = setCell (setCell g w h (mouseCell cell_px mx my).1 (mouseCell cell_px mx my).2 true)
            w h (mouseCell cell_px mx my).1 (mouseCell cell_px mx my).2 false ∧
    gget (applyMouse g w h cell_px mx my true true)
        (idx (mouseCell cell_px mx my).1.toNat (mouseCell cell_px mx my).2.toNat w) = 0 := by
  have hdef : applyMouse g w h cell_px mx my true true
      = setCell (setCell g w h (mouseCell cell_px mx my).1 (mouseCell cell_px mx my).2 true)
          w h (mouseCell cell_px mx my).1 (mouseCell cell_px mx my).2 false := rfl
  refine ⟨hdef, ?_⟩
  rw [hdef]
  have hlen2 : (setCell g w h (mouseCell cell_px mx my).1
      (mouseCell cell_px mx my).2 true).length = w * h := by
    rw [setCell_length]; exact hlen
  have h := gget_setCell_in (setCell g w h (mouseCell cell_px mx my).1
      (mouseCell cell_px mx my).2 true) w h
    (mouseCell cell_px mx my).1 (mouseCell cell_px mx my).2 false hx0 hxw hy0 hyh hlen2
  simpa using h

/-- Witness for C9: pointer at pixel (17, 0) with 16-pixel cells addresses
cell (1, 0) of a 2x2 grid; with both buttons held the cell ends dead. -/
theorem C9_erase_wins_witness :
    gget (applyMouse [0, 7, 0, 0] 2 2 16 17 0 true true)
      (idx (mouseCell 16 17 0).1.toNat (mouseCell 16 17 0).2.toNat 2) = 0 :=
  (C9_erase_wins [0, 7, 0, 0] 2 2 16 17 0 (by decide) (by decide) (by decide)
    (by decide) (by decide)).2

/- ### countNeighbors helper lemmas -/

theorem neighborAlive_nowrap (g : List Nat) (w h : Nat) (nx ny : Int) :
    neighborAlive g w h false nx ny
      = if nx < 0 ∨ (w : Int) ≤ nx ∨ ny < 0 ∨ (h : Int) ≤ ny then false
        else decide (gget g (idx nx.toNat ny.toNat w) ≠ 0) := rfl

theorem neighborAlive_wrap (g : List Nat) (w h : Nat) (nx ny : Int) :
    neighborAlive g w h true nx ny
      = decide (gget g (idx (mod nx w).toNat (mod ny h).toNat w) ≠ 0) := rfl

theorem countNeighbors_le_eight (g : List Nat) (x y : Int) (w h : Nat) (wrap : Bool) :
    countNeighbors g x y w h wrap ≤ 8 := by
  unfold countNeighbors
  have h8 := List.countP_le_length
    (fun d => neighborAlive g w h wrap (x + d.1) (y + d.2)) (l := mooreOffsets)
  simpa [mooreOffsets] using h8

theorem gget_map_norm (g : List Nat) (i : Nat) :
    (gget (g.map fun a => if a = 0 then 0 else 1) i ≠ 0) ↔ gget g i ≠ 0 := by
  unfold gget
  rw [List.getD_eq_getElem?_getD, List.getD_eq_getElem?_getD, List.getElem?_map]
  cases hg : g[i]? with
  | none => simp
  | some a => by_cases ha : a = 0 <;> simp [ha]

theorem neighborAlive_norm (g : List Nat) (w h : Nat) (wrap : Bool) (nx ny : Int) :
    neighborAlive (g.map fun a => if a = 0 then 0 else 1) w h wrap nx ny
      = neighborAlive g w h wrap nx ny := by
  cases wrap
  · rw [neighborAlive_nowrap, neighborAlive_nowrap]
    split_ifs with hb
    · rfl
    · simp [gget_map_norm]
  · rw [neighborAlive_wrap, neighborAlive_wrap]
    simp [gget_map_norm]

theorem countNeighbors_norm (g : List Nat) (x y : Int) (w h : Nat) (wrap : Bool) :
    countNeighbors (g.map fun a => if a = 0 then 0 else 1) x y w h wrap
      = countNeighbors g x y w h wrap := by
  unfold countNeighbors
  exact List.countP_congr (fun d _ => by rw [neighborAlive_norm])

theorem neg_one_mod (w : Nat) (hw : 1 ≤ w) : mod (-1) (w : Int) = (w : Int) - 1 := by
  have hw' : (0 : Int) < (w : Int) := by exact_mod_cast hw
  rw [mod_eq_emod (-1) (w : Int) hw']
  calc (-1 : Int) % (w : Int)
      = (-1 + (w : Int) * 1) % (w : Int) := (Int.add_mul_emod_self_left (-1) (w : Int) 1).symm
    _ = ((w : Int) - 1) % (w : Int) := by rw [show (-1 + (w : Int) * 1) = (w : Int) - 1 by ring]
    _ = (w : Int) - 1 := Int.emod_eq_of_lt (by omega) (by omega)

/-- With wrap, the diagonal neighbor (-1, -1) of the origin is the opposite
corner cell (w-1, h-1): if that cell is live, the count is at least 1. -/
theorem countNeighbors_wrap_corner (g : List Nat) (w h : Nat) (hw : 1 ≤ w) (hh : 1 ≤ h)
    (hg : gget g (idx (w - 1) (h - 1) w) ≠ 0) :
    1 ≤ countNeighbors g 0 0 w h true := by
  unfold countNeighbors
  refine List.countP_pos_iff.mpr ⟨(-1, -1), by simp [mooreOffsets], ?_⟩
  show neighborAlive g w h true (-1) (-1) = true
  rw [neighborAlive_wrap, neg_one_mod w hw, neg_one_mod h hh]
  rw [show ((w : Int) - 1).toNat = w - 1 by omega, show ((h : Int) - 1).toNat = h - 1 by omega]
  exact decide_eq_true hg

/-- Without wrap, when the grid is at least 3 wide or 3 tall, the opposite
corner (w-1, h-1) is not among the in-bounds Moore neighbors of the origin:
if it is the only live cell, the origin counts 0 neighbors. -/
theorem countNeighbors_nowrap_corner (g : List Nat) (w h : Nat)
    (hwh : 3 ≤ w ∨ 3 ≤ h)
    (hg : ∀ i, i ≠ idx (w - 1) (h - 1) w → gget g i = 0) :
    countNeighbors g 0 0 w h false = 0 := by
  unfold countNeighbors
  rw [List.countP_eq_zero]
  intro d hd
  simp only [mooreOffsets, List.mem_cons, List.not_mem_nil, or_false] at hd
  rcases hd with rfl | rfl | rfl | rfl | rfl | rfl | rfl | rfl
  · rw [neighborAlive_nowrap, if_pos (by norm_num)]; simp
  · rw [neighborAlive_nowrap, if_pos (by norm_num)]; simp
  · rw [neighborAlive_nowrap, if_pos (by norm_num)]; simp
  · rw [neighborAlive_nowrap, if_pos (by norm_num)]; simp
  · -- offset (1, 0): neighbor cell (1, 0)
    rw [neighborAlive_nowrap]
    split_ifs with hb
    · simp
    · intro hT
      refine absurd (hg _ ?_) (of_decide_eq_true hT)
      norm_num at hb ⊢
      intro hEq
      have hx1 : (1 : Nat) < w := by omega
      have := (rowmajor_inj 1 0 (w - 1) (h - 1) w hx1 (by omega)).mp hEq
      omega
  · rw [neighborAlive_nowrap, if_pos (by norm_num)]; simp
  · -- offset (0, 1): neighbor cell (0, 1)
    rw [neighborAlive_nowrap]
    split_ifs with hb
    · simp
    · intro hT
      refine absurd (hg _ ?_) (of_decide_eq_true hT)
      norm_num at hb ⊢
      intro hEq
      have hx1 : (0 : Nat) < w := by omega
      have := (rowmajor_inj 0 1 (w - 1) (h - 1) w hx1 (by omega)).mp hEq
      omega
  · -- offset (1, 1): neighbor cell (1, 1)
    rw [neighborAlive_nowrap]
    split_ifs with hb
    · simp
    · intro hT
      refine absurd (hg _ ?_) (of_decide_eq_true hT)
      norm_num at hb ⊢
      intro hEq
      have hx1 : (1 : Nat) < w := by omega
      have := (rowmajor_inj 1 1 (w - 1) (h - 1) w hx1 (by omega)).mp hEq
      omega

theorem gget_oob (g : List Nat) (i : Nat) (hi : g.length ≤ i) : gget g i = 0 := by
  unfold gget
  rw [List.getD_eq_getElem?_getD, List.getElem?_eq_none hi]
  rfl

/-- Counterexample to C2 as stated: on a 2x2 grid with wrap off, the only
live cell sits at (w-1, h-1) = (1, 1), which genuinely is an in-bounds
Moore neighbor of (0, 0), so countNeighbors at (0, 0) returns 1 where the
claim requires the corner to be excluded (count 0). -/
theorem C2_neighbors_counterexample :
    gget [0, 0, 0, 1] (idx (2 - 1) (2 - 1) 2) ≠ 0 ∧
    (∀ i, i ≠ idx (2 - 1) (2 - 1) 2 → gget [0, 0, 0, 1] i = 0) ∧
    countNeighbors [0, 0, 0, 1] 0 0 2 2 false = 1 := by
  refine ⟨by decide, ?_, by decide⟩
  intro i hi
  have h3 : idx (2 - 1) (2 - 1) 2 = 3 := rfl
  rw [h3] at hi
  by_cases hlo : i < 4
  · revert hi
    revert hlo
    revert i
    decide
  · exact gget_oob [0, 0, 0, 1] i (by simp; omega)

/-- C2 (amended): countNeighbors counts, over the 8 Moore neighbor
positions, those holding a cell with age at least 1, any alive age counting
as 1; with wrap true, out-of-range coordinates are reduced with mod, which
is non-negative for negative inputs and agrees with the euclidean
remainder, so a live cell at (w-1, h-1) is counted at (0, 0); with wrap
false, out-of-range neighbors are excluded, and whenever the grid is at
least 3 cells wide or tall (so that the opposite corner is not itself an
in-bounds neighbor of the origin) a live cell at (w-1, h-1) is not counted
at (0, 0). -/
theorem C2_neighbors_amended :
    (∀ a m : Int, 0 < m → 0 ≤ mod a m ∧ mod a m < m ∧ mod a m = a % m) ∧
    (∀ (g : List Nat) (x y : Int) (w h : Nat) (wrap : Bool),
      countNeighbors g x y w h wrap ≤ 8) ∧
    (∀ (g : List Nat) (x y : Int) (w h : Nat) (wrap : Bool),
      countNeighbors (g.map fun a => if a = 0 then 0 else 1) x y w h wrap
        = countNeighbors g x y w h wrap) ∧
    (∀ (g : List Nat) (w h : Nat), 1 ≤ w → 1 ≤ h →
      gget g (idx (w - 1) (h - 1) w) ≠ 0 → 1 ≤ countNeighbors g 0 0 w h true) ∧
    (∀ (g : List Nat) (w h : Nat), 3 ≤ w ∨ 3 ≤ h →
      (∀ i, i ≠ idx (w - 1) (h - 1) w → gget g i = 0) →
      countNeighbors g 0 0 w h false = 0) := by
  refine ⟨fun a m hm => ⟨(mod_bounds a m hm).1, (mod_bounds a m hm).2, mod_eq_emod a m hm⟩,
    fun g x y w h wrap => countNeighbors_le_eight g x y w h wrap,
    fun g x y w h wrap => countNeighbors_norm g x y w h wrap,
    fun g w h hw hh hg => countNeighbors_wrap_corner g w h hw hh hg,
    fun g w h hwh hg => countNeighbors_nowrap_corner g w h hwh hg⟩

/-- Witness for C2 (amended): mod (-5) 3 = 1 is non-negative; on a 3x3 grid
whose only live cell is the far corner (2, 2), wrap counts it at the origin
and no-wrap does not. -/
theorem C2_neighbors_amended_witness :
    mod (-5) 3 = 1 ∧
    1 ≤ countNeighbors [0, 0, 0, 0, 0, 0, 0, 0, 7] 0 0 3 3 true ∧
    countNeighbors [0, 0, 0, 0, 0, 0, 0, 0, 7] 0 0 3 3 false = 0 := by
  refine ⟨?_, ?_, ?_⟩
  · have h := (C2_neighbors_amended.1 (-5) 3 (by decide)).2.2
    exact h.trans (by decide)
  · exact C2_neighbors_amended.2.2.2.1 [0, 0, 0, 0, 0, 0, 0, 0, 7] 3 3
      (by decide) (by decide) (by decide)
  · refine C2_neighbors_amended.2.2.2.2 [0, 0, 0, 0, 0, 0, 0, 0, 7] 3 3
      (Or.inl (by decide)) ?_
    intro i hi
    have h8 : idx (3 - 1) (3 - 1) 3 = 8 := rfl
    rw [h8] at hi
    by_cases hlo : i < 9
    · revert hi
      revert hlo
      revert i
      decide
    · exact gget_oob [0, 0, 0, 0, 0, 0, 0, 0, 7] i (by simp; omega)

/-- Counterexample to C8 as stated: a 3x3 grid containing exactly a
horizontal blinker, stepped twice with wrap on, does not return to its
original live-cell set (the wrapped neighborhoods make the pattern fill the
grid and then die out entirely). -/
theorem C8_blinker_counterexample :
    liveMask (stepLife (stepLife [0, 0, 0, 1, 1, 1, 0, 0, 0] 3 3 true 30) 3 3 true 30)
      ≠ liveMask [0, 0, 0, 1, 1, 1, 0, 0, 0] := by decide

/- ### The general blinker analysis (wrap off) -/

/-- For a grid whose liveness is characterized by a predicate, a no-wrap
neighbor probe succeeds exactly for an in-bounds position satisfying the
predicate. -/
theorem neighborAlive_iff_of (g : List Nat) (w h : Nat) (P : Nat → Nat → Prop)
    (hlive : ∀ x y, x < w → y < h → (gget g (idx x y w) ≠ 0 ↔ P x y))
    (nx ny : Int) :
    neighborAlive g w h false nx ny = true ↔
      (0 ≤ nx ∧ nx < (w : Int) ∧ 0 ≤ ny ∧ ny < (h : Int) ∧ P nx.toNat ny.toNat) := by
  rw [neighborAlive_nowrap]
  split_ifs with hb
  · simp only [Bool.false_eq_true, false_iff]
    rintro ⟨h1, h2, h3, h4, _⟩
    omega
  · rw [decide_eq_true_eq]
    constructor
    · intro hne
      have hP := (hlive nx.toNat ny.toNat (by omega) (by omega)).mp hne
      exact ⟨by omega, by omega, by omega, by omega, hP⟩
    · rintro ⟨_, _, _, _, hP⟩
      exact (hlive nx.toNat ny.toNat (by omega) (by omega)).mpr hP

/-- countP over a pointwise-disjoint disjunction of predicates splits into a
sum of counts. -/
theorem countP_or_disjoint {α : Type} (p q : α → Bool) (l : List α)
    (hdis : ∀ d ∈ l, ¬(p d = true ∧ q d = true)) :
    List.countP (fun d => p d || q d) l = List.countP p l + List.countP q l := by
  induction l with
  | nil => simp
  | cons d l ih =>
      have hd := hdis d (List.mem_cons_self d l)
      have hrest : ∀ e ∈ l, ¬(p e = true ∧ q e = true) :=
        fun e he => hdis e (List.mem_cons_of_mem d he)
      simp only [List.countP_cons, ih hrest]
      cases hp : p d <;> cases hq : q d <;> simp [hp, hq] at hd ⊢ <;> omega

set_option maxHeartbeats 1000000 in
/-- Among the eight Moore offsets of (x, y), exactly one reaches a given
cell (a, b) iff that cell is a Moore neighbor of (x, y). -/
theorem countOne (x y a b : Nat) :
    List.countP (fun d => decide ((x : Int) + d.1 = (a : Int) ∧ (y : Int) + d.2 = (b : Int)))
        mooreOffsets
      = (if ¬(a = x ∧ b = y) ∧ x ≤ a + 1 ∧ a ≤ x + 1 ∧ y ≤ b + 1 ∧ b ≤ y + 1
          then 1 else 0) := by
  simp only [mooreOffsets, List.countP_cons, List.countP_nil, decide_eq_true_eq]
  split_ifs <;> omega

/-- For a grid whose live set is exactly three distinct in-bounds cells, the
no-wrap neighbor count of any cell is the number of those cells lying in
its Moore neighborhood. -/
theorem countNeighbors_three (g : List Nat) (w h : Nat)
    (a1 b1 a2 b2 a3 b3 : Nat)
    (hdist : ¬(a1 = a2 ∧ b1 = b2) ∧ ¬(a1 = a3 ∧ b1 = b3) ∧ ¬(a2 = a3 ∧ b2 = b3))
    (hin : a1 < w ∧ b1 < h ∧ a2 < w ∧ b2 < h ∧ a3 < w ∧ b3 < h)
    (hlive : ∀ x y, x < w → y < h →
      (gget g (idx x y w) ≠ 0 ↔
        ((x = a1 ∧ y = b1) ∨ (x = a2 ∧ y = b2) ∨ (x = a3 ∧ y = b3))))
    (x y : Nat) :
    countNeighbors g x y w h false
      = (if ¬(a1 = x ∧ b1 = y) ∧ x ≤ a1 + 1 ∧ a1 ≤ x + 1 ∧ y ≤ b1 + 1 ∧ b1 ≤ y + 1
          then 1 else 0)
      + (if ¬(a2 = x ∧ b2 = y) ∧ x ≤ a2 + 1 ∧ a2 ≤ x + 1 ∧ y ≤ b2 + 1 ∧ b2 ≤ y + 1
          then 1 else 0)
      + (if ¬(a3 = x ∧ b3 = y) ∧ x ≤ a3 + 1 ∧ a3 ≤ x + 1 ∧ y ≤ b3 + 1 ∧ b3 ≤ y + 1
          then 1 else 0) := by
  have hNA : ∀ nx ny : Int, neighborAlive g w h false nx ny
      = (decide (nx = (a1 : Int) ∧ ny = (b1 : Int)) ||
          (decide (nx = (a2 : Int) ∧ ny = (b2 : Int)) ||
            decide (nx = (a3 : Int) ∧ ny = (b3 : Int)))) := by
    intro nx ny
    rw [Bool.eq_iff_iff]
    simp only [Bool.or_eq_true, decide_eq_true_eq]
    rw [neighborAlive_iff_of g w h _ hlive nx ny]
    omega
  have hcong : countNeighbors g x y w h false
      = List.countP (fun d =>
          decide ((x : Int) + d.1 = (a1 : Int) ∧ (y : Int) + d.2 = (b1 : Int)) ||
            (decide ((x : Int) + d.1 = (a2 : Int) ∧ (y : Int) + d.2 = (b2 : Int)) ||
              decide ((x : Int) + d.1 = (a3 : Int) ∧ (y : Int) + d.2 = (b3 : Int))))
          mooreOffsets := by
    unfold countNeighbors
    exact List.countP_congr (fun d _ => by rw [hNA])
  have h123 := countP_or_disjoint
    (fun d => decide ((x : Int) + d.1 = (a1 : Int) ∧ (y : Int) + d.2 = (b1 : Int)))
    (fun d => decide ((x : Int) + d.1 = (a2 : Int) ∧ (y : Int) + d.2 = (b2 : Int)) ||
      decide ((x : Int) + d.1 = (a3 : Int) ∧ (y : Int) + d.2 = (b3 : Int)))
    mooreOffsets
    (by
      intro d _
      simp only [Bool.or_eq_true, decide_eq_true_eq]
      omega)
  have h23 := countP_or_disjoint
    (fun d => decide ((x : Int) + d.1 = (a2 : Int) ∧ (y : Int) + d.2 = (b2 : Int)))
    (fun d => decide ((x : Int) + d.1 = (a3 : Int) ∧ (y : Int) + d.2 = (b3 : Int)))
    mooreOffsets
    (by
      intro d _
      simp only [decide_eq_true_eq]
      omega)
  rw [hcong, h123, h23, countOne x y a1 b1, countOne x y a2 b2, countOne x y a3 b3]
  omega

/-- The produced cell of a step is live iff it was dead with exactly 3 live
neighbors (birth) or live with 2 or 3 live neighbors (survival). -/
theorem stepLife_live_iff (cur : List Nat) (w h : Nat) (wrap : Bool) (max_age : Int)
    (x y : Nat) (hx : x < w) (hy : y < h) :
    (gget (stepLife cur w h wrap max_age) (idx x y w) ≠ 0) ↔
      ((gget cur (idx x y w) = 0 ∧ countNeighbors cur x y w h wrap = 3) ∨
        (gget cur (idx x y w) ≠ 0 ∧
          (countNeighbors cur x y w h wrap = 2 ∨ countNeighbors cur x y w h wrap = 3))) := by
  rw [gget_stepLife_xy cur w h wrap max_age x y hx hy]
  by_cases h0 : gget cur (idx x y w) = 0
  · rw [stepCell_dead cur w h wrap (clampCap max_age) x y h0]
    by_cases hn : countNeighbors cur x y w h wrap = 3 <;> simp [h0, hn]
  · by_cases hn : countNeighbors cur x y w h wrap = 2 ∨ countNeighbors cur x y w h wrap = 3
    · rw [stepCell_live_survives cur w h wrap (clampCap max_age) x y h0 hn]
      have hcp := clampCap_pos max_age
      constructor
      · intro _
        exact Or.inr ⟨h0, hn⟩
      · intro _
        split_ifs <;> omega
    · rw [stepCell_live_dies cur w h wrap (clampCap max_age) x y h0 hn]
      simp [h0, hn]

/-- One step turns a horizontal blinker with a free row above and below into
the vertical blinker on the middle column, and kills everything else. -/
theorem stepLife_H_blinker (w h x0 y0 : Nat) (cur : List Nat) (max_age : Int)
    (hx : x0 + 3 ≤ w) (hy1 : 1 ≤ y0) (hy2 : y0 + 2 ≤ h)
    (hH : ∀ x y, x < w → y < h →
      (gget cur (idx x y w) ≠ 0 ↔ (y = y0 ∧ (x = x0 ∨ x = x0 + 1 ∨ x = x0 + 2)))) :
    ∀ x y, x < w → y < h →
      (gget (stepLife cur w h false max_age) (idx x y w) ≠ 0 ↔
        (x = x0 + 1 ∧ (y + 1 = y0 ∨ y = y0 ∨ y = y0 + 1))) := by
  intro x y hx2 hy2'
  have hlive : ∀ a b, a < w → b < h →
      (gget cur (idx a b w) ≠ 0 ↔
        ((a = x0 ∧ b = y0) ∨ (a = x0 + 1 ∧ b = y0) ∨ (a = x0 + 2 ∧ b = y0))) :=
    fun a b ha hb => (hH a b ha hb).trans (by omega)
  have hc := countNeighbors_three cur w h x0 y0 (x0 + 1) y0 (x0 + 2) y0
    (by omega) (by omega) hlive x y
  have h0iff := hH x y hx2 hy2'
  rw [stepLife_live_iff cur w h false max_age x y hx2 hy2', hc]
  split_ifs <;> omega

/-- One step turns a vertical blinker with a free column on each side back
into the horizontal blinker on the middle row, and kills everything else. -/
theorem stepLife_V_blinker (w h x0 y0 : Nat) (g : List Nat) (max_age : Int)
    (hx : x0 + 3 ≤ w) (hy1 : 1 ≤ y0) (hy2 : y0 + 2 ≤ h)
    (hV : ∀ x y, x < w → y < h →
      (gget g (idx x y w) ≠ 0 ↔ (x = x0 + 1 ∧ (y + 1 = y0 ∨ y = y0 ∨ y = y0 + 1)))) :
    ∀ x y, x < w → y < h →
      (gget (stepLife g w h false max_age) (idx x y w) ≠ 0 ↔
        (y = y0 ∧ (x = x0 ∨ x = x0 + 1 ∨ x = x0 + 2))) := by
  intro x y hx2 hy2'
  have hlive : ∀ a b, a < w → b < h →
      (gget g (idx a b w) ≠ 0 ↔
        ((a = x0 + 1 ∧ b = y0 - 1) ∨ (a = x0 + 1 ∧ b = y0) ∨ (a = x0 + 1 ∧ b = y0 + 1))) :=
    fun a b ha hb => (hV a b ha hb).trans (by omega)
  have hc := countNeighbors_three g w h (x0 + 1) (y0 - 1) (x0 + 1) y0 (x0 + 1) (y0 + 1)
    (by omega) (by omega) hlive x y
  have h0iff := hV x y hx2 hy2'
  rw [stepLife_live_iff g w h false max_age x y hx2 hy2', hc]
  split_ifs <;> omega

theorem gget_eq_getElem (g : List Nat) (i : Nat) (hi : i < g.length) : gget g i = g[i] := by
  unfold gget
  rw [List.getD_eq_getElem?_getD, List.getElem?_eq_getElem hi]
  rfl

theorem stepLife_length (cur : List Nat) (w h : Nat) (wrap : Bool) (max_age : Int) :
    (stepLife cur w h wrap max_age).length = w * h := by
  unfold stepLife
  rw [List.length_map, List.length_range]

/-- C8 (amended): every grid containing exactly a horizontal blinker — live
cells exactly (x0, y0), (x0+1, y0), (x0+2, y0), of any positive ages — with
wrap off, the three cells in range and one free row above and below the
blinker row, returns to its original live-cell set after two steps. -/
theorem C8_blinker_amended (w h x0 y0 : Nat) (cur : List Nat) (max_age : Int)
    (hx : x0 + 3 ≤ w) (hy1 : 1 ≤ y0) (hy2 : y0 + 2 ≤ h)
    (hlen : cur.length = w * h)
    (hH : ∀ x y, x < w → y < h →
      (gget cur (idx x y w) ≠ 0 ↔ (y = y0 ∧ (x = x0 ∨ x = x0 + 1 ∨ x = x0 + 2)))) :
    liveMask (stepLife (stepLife cur w h false max_age) w h false max_age)
      = liveMask cur := by
  have h1 := stepLife_H_blinker w h x0 y0 cur max_age hx hy1 hy2 hH
  have h2 := stepLife_V_blinker w h x0 y0 (stepLife cur w h false max_age) max_age
    hx hy1 hy2 h1
  have hw : 0 < w := by omega
  have hlen2 : (stepLife (stepLife cur w h false max_age) w h false max_age).length
      = w * h := stepLife_length _ w h false max_age
  unfold liveMask
  apply List.ext_getElem
  · rw [List.length_map, List.length_map, hlen2, hlen]
  · intro i hi1 hi2
    simp only [List.getElem_map]
    rw [decide_eq_decide]
    rw [List.length_map, hlen2] at hi1
    rw [List.length_map, hlen] at hi2
    have hxw : i % w < w := Nat.mod_lt i hw
    have hyh : i / w < h := by
      rw [Nat.div_lt_iff_lt_mul hw, Nat.mul_comm h w]
      exact hi1
    have e2 := h2 (i % w) (i / w) hxw hyh
    rw [idx_mod_div i w] at e2
    have eH := hH (i % w) (i / w) hxw hyh
    rw [idx_mod_div i w] at eH
    rw [← gget_eq_getElem _ i (by omega), ← gget_eq_getElem _ i (by omega)]
    exact e2.trans eH.symm

/-- Witness for C8 (amended): the horizontal blinker filling the middle row
of a 3x3 grid with wrap off returns to its original live-cell set after two
steps. -/
theorem C8_blinker_amended_witness :
    liveMask (stepLife (stepLife [0, 0, 0, 1, 1, 1, 0, 0, 0] 3 3 false 30) 3 3 false 30)
      = liveMask [0, 0, 0, 1, 1, 1, 0, 0, 0] :=
  C8_blinker_amended 3 3 0 1 [0, 0, 0, 1, 1, 1, 0, 0, 0] 30 (by decide) (by decide)
    (by decide) (by decide)
    (by
      intro x y hx hy
      interval_cases x <;> interval_cases y <;> decide)

/- ### Palette: float arithmetic embedded exactly over the rationals -/

/-- An 8-bit RGBA color, mirroring SDL_Color. -/
structure SDL_Color where
  r : Nat
  g : Nat
  b : Nat
  a : Nat

/-- Truncation toward zero, the rounding used by C fmod. -/
def truncQ (q : ℚ) : Int := if q < 0 then -⌊-q⌋ else ⌊q⌋

/-- C fmod over the rationals: x - y * trunc(x / y). -/
def fmodQ (x y : ℚ) : ℚ := x - y * (truncQ (x / y) : ℚ)

/-- C lround over the rationals: round to nearest, halfway away from 0. -/
def lroundQ (q : ℚ) : Int := if q < 0 then -⌊-q + 1/2⌋ else ⌊q + 1/2⌋

/-- std::clamp over the rationals. -/
def clampQ (v lo hi : ℚ) : ℚ := if v < lo then lo else if hi < v then hi else v

/-- The to8 lambda of hsvToRgb (lines 67-70): clamp to the unit interval,
scale to 255, round, and narrow to an 8-bit value. -/
def to8 (f : ℚ) : Nat := (lroundQ (clampQ f 0 1 * 255)).toNat % 256

/-- Source function hsvToRgb (lines 51-78): standard sector-based HSV to
RGB conversion. -/
def hsvToRgb (h_deg s v : ℚ) : SDL_Color :=
  let h1 := fmodQ h_deg 360
  let h2 := if h1 < 0 then h1 + 360 else h1
  let c := v * s
  let x := c * (1 - |fmodQ (h2 / 60) 2 - 1|)
  let m := v - c
  let rgb : ℚ × ℚ × ℚ :=
    if h2 < 60 then (c, x, 0)
    else if h2 < 120 then (x, c, 0)
    else if h2 < 180 then (0, c, x)
    else if h2 < 240 then (0, x, c)
    else if h2 < 300 then (x, 0, c)
    else (c, 0, x)
  { r := to8 (rgb.1 + m), g := to8 (rgb.2.1 + m), b := to8 (rgb.2.2 + m), a := 255 }

/-- Source function colorForAge (lines 80-91): age 0 is black; otherwise
the age is normalized against the cap and mapped through HSV with hue
sweeping 200 down to 0 and value 1 down to 0.35 at full saturation. -/
def colorForAge (age : Nat) (max_age : Int) : SDL_Color :=
  if age = 0 then { r := 0, g := 0, b := 0, a := 255 }
  else
    let ma : Int := max 1 max_age
    let t : ℚ :=
      if ma = 1 then 0
      else ((min (age : Int) ma - 1 : Int) : ℚ) / ((ma - 1 : Int) : ℚ)
    hsvToRgb (200 * (1 - t)) 1 (1 - 65 / 100 * t)

/-- The normalization stated by the spec: t = (min(age, cap) - 1)/(cap - 1)
with cap = max(1, maxAge), and t = 0 when cap = 1. -/
def tSpec (age : Nat) (maxAge : Int) : ℚ :=
  if max 1 maxAge = 1 then 0
  else ((min (age : Int) (max 1 maxAge) - 1 : Int) : ℚ) / ((max 1 maxAge - 1 : Int) : ℚ)

/-- C6: colorForAge is a pure function of (age, maxAge); age 0 always maps
to the background black; for age at least 1 it equals the HSV mapping of
the spec's normalized t (full saturation, hue 200 * (1 - t), value
1 - 0.65 * t); t = 0 when the cap is 1 so no division by zero occurs, t
stays in the unit interval, and each produced channel is the rounded value
clamped into 0..255, narrowed without wrapping. -/
theorem C6_colorForAge :
    (∀ max_age : Int, colorForAge 0 max_age = { r := 0, g := 0, b := 0, a := 255 }) ∧
    (∀ (age : Nat) (max_age : Int), 1 ≤ age →
      colorForAge age max_age
        = hsvToRgb (200 * (1 - tSpec age max_age)) 1 (1 - 65 / 100 * tSpec age max_age)) ∧
    (∀ (age : Nat) (max_age : Int), max 1 max_age = 1 → tSpec age max_age = 0) ∧
    (∀ (age : Nat) (max_age : Int), 1 ≤ age →
      0 ≤ tSpec age max_age ∧ tSpec age max_age ≤ 1) ∧
    (∀ f : ℚ, 0 ≤ lroundQ (clampQ f 0 1 * 255) ∧ lroundQ (clampQ f 0 1 * 255) ≤ 255 ∧
      to8 f = (lroundQ (clampQ f 0 1 * 255)).toNat ∧ to8 f ≤ 255) := by
  refine ⟨fun _ => rfl, ?_, ?_, ?_, ?_⟩
  · intro age max_age h1
    unfold colorForAge tSpec
    rw [if_neg (by omega : ¬ age = 0)]
  · intro age max_age hcap
    unfold tSpec
    rw [if_pos hcap]
  · intro age max_age h1
    unfold tSpec
    split_ifs with hcap
    · norm_num
    · have hma : (2 : Int) ≤ max 1 max_age := by
        have h := le_max_left (1 : Int) max_age
        omega
      have hnum0 : (0 : Int) ≤ min (age : Int) (max 1 max_age) - 1 := by
        have hage : (1 : Int) ≤ (age : Int) := by exact_mod_cast h1
        omega
      have hnum1 : min (age : Int) (max 1 max_age) - 1 ≤ max 1 max_age - 1 := by omega
      have hden : (0 : Int) < max 1 max_age - 1 := by omega
      constructor
      · apply div_nonneg
        · exact_mod_cast hnum0
        · have : (0 : ℚ) ≤ ((max 1 max_age - 1 : Int) : ℚ) := by exact_mod_cast le_of_lt hden
          exact this
      · rw [div_le_one (by exact_mod_cast hden)]
        exact_mod_cast hnum1
  · intro f
    have hc : 0 ≤ clampQ f 0 1 ∧ clampQ f 0 1 ≤ 1 := by
      unfold clampQ
      split_ifs <;> constructor <;> linarith
    have hq0 : (0 : ℚ) ≤ clampQ f 0 1 * 255 := mul_nonneg hc.1 (by norm_num)
    have hq1 : clampQ f 0 1 * 255 ≤ 255 := by
      calc clampQ f 0 1 * 255 ≤ 1 * 255 :=
            mul_le_mul_of_nonneg_right hc.2 (by norm_num)
        _ = 255 := by norm_num
    have hlr : lroundQ (clampQ f 0 1 * 255) = ⌊clampQ f 0 1 * 255 + 1 / 2⌋ := by
      unfold lroundQ
      rw [if_neg (not_lt.mpr hq0)]
    have hge : 0 ≤ lroundQ (clampQ f 0 1 * 255) := by
      rw [hlr]
      exact Int.le_floor.mpr (by push_cast; linarith)
    have hle : lroundQ (clampQ f 0 1 * 255) ≤ 255 := by
      rw [hlr]
      have hlt : ⌊clampQ f 0 1 * 255 + 1 / 2⌋ < 256 := Int.floor_lt.mpr (by push_cast; linarith)
      omega
    have hto8 : to8 f = (lroundQ (clampQ f 0 1 * 255)).toNat := by
      unfold to8
      omega
    exact ⟨hge, hle, hto8, by omega⟩

/-- Witness for C6: at age 1 with the default cap 30, colorForAge equals
the HSV mapping of the spec's normalization; age 0 is black; the rounding
path keeps every channel at most 255. -/
theorem C6_colorForAge_witness :
    colorForAge 1 30 = hsvToRgb (200 * (1 - tSpec 1 30)) 1 (1 - 65 / 100 * tSpec 1 30) ∧
    colorForAge 0 30 = { r := 0, g := 0, b := 0, a := 255 } ∧
    to8 (1 / 2) ≤ 255 :=
  ⟨C6_colorForAge.2.1 1 30 (by decide), C6_colorForAge.1 30,
    (C6_colorForAge.2.2.2.2 (1 / 2)).2.2.2⟩

end Conway
